import Mathlib

/-!
Verification of the note/block data model and editing operations of the
notion-inspired creative notes app (src/src/App.tsx).

Modelling conventions (shallow embedding of the TypeScript source):
- JS arrays become Lean lists; JS strings become Lean String.
- Timestamps (Date.now()) are epoch milliseconds, modelled as Nat and passed
  explicitly as a parameter wherever the source calls Date.now().
- Randomly generated ids (Math.random().toString(36).slice(2)) are modelled as
  explicit String parameters; theorems quantify over them.
- JS array indexing notes[i], which yields undefined out of range (and a
  subsequent member access throws), is modelled by jsGet returning Option;
  a handler that would throw a TypeError returns none.
- findIndex, which returns -1 when no element matches, is modelled by
  jsFindIndex returning Int.
- localStorage plus the browser builtins JSON.parse / JSON.stringify are
  modelled at the JSON-value level: the storage slot holds Option Json, where
  none stands for an absent key, a falsy (empty) string, or a string that
  JSON.parse rejects, and some j stands for a string that parses to the JSON
  value j. JSON.stringify on note collections is modelled by encodeNotes; the
  builtin roundtrip parse(stringify(v)) = v for such values is reflected by
  saveNotes storing exactly encodeNotes notes. Deep structural equality of a
  parsed JSON value with a Lean-level note collection is expressed through the
  canonical reading decodeNotes.
- window.confirm: theorems model the confirmed path of deletion only (the
  unconfirmed path returns with no state change).
- DOM side effects (focus transfer via setTimeout, document.execCommand) are
  outside the React state and are not part of the embedded state transitions;
  the embedded functions are the setState updates the handlers perform.
-/

namespace CreativeNotes

/-- BlockType from App.tsx line 21: "text" | "heading" | "bulleted-list". -/
inductive BlockType where
  | text
  | heading
  | bulletedList
deriving DecidableEq, Repr

/-- Block from App.tsx lines 23-27. -/
structure Block where
  id : String
  type : BlockType
  content : String
deriving DecidableEq, Repr

/-- Note from App.tsx lines 29-35. created and updated are epoch milliseconds. -/
structure Note where
  id : String
  title : String
  blocks : List Block
  created : Nat
  updated : Nat
deriving DecidableEq, Repr

/-- JSON values, the codomain of the browser builtin JSON.parse. -/
inductive Json where
  | null
  | bool (b : Bool)
  | num (n : Nat)
  | str (s : String)
  | arr (xs : List Json)
  | obj (fields : List (String × Json))

/-- Serialization of a BlockType to its JSON string form. -/
def encodeBlockType : BlockType → String
  | .text => "text"
  | .heading => "heading"
  | .bulletedList => "bulleted-list"

/-- Canonical reading of a BlockType from its JSON string form. -/
def decodeBlockType (s : String) : Option BlockType :=
  if s = "text" then some .text
  else if s = "heading" then some .heading
  else if s = "bulleted-list" then some .bulletedList
  else none

/-- JSON.stringify image of a Block, field order as declared in the source. -/
def encodeBlock (b : Block) : Json :=
  .obj [("id", .str b.id), ("type", .str (encodeBlockType b.type)),
        ("content", .str b.content)]

/-- Canonical reading of a Block from its JSON image. -/
def decodeBlock : Json → Option Block
  | .obj [("id", .str i), ("type", .str t), ("content", .str c)] =>
      match decodeBlockType t with
      | some ty => some ⟨i, ty, c⟩
      | none => none
  | _ => none

/-- Decode every element of a JSON array, failing if any element fails. -/
def decodeList {α : Type} (g : Json → Option α) : List Json → Option (List α)
  | [] => some []
  | x :: xs =>
      match g x, decodeList g xs with
      | some a, some as => some (a :: as)
      | _, _ => none

/-- JSON.stringify image of a Note, field order as declared in the source. -/
def encodeNote (n : Note) : Json :=
  .obj [("id", .str n.id), ("title", .str n.title),
        ("blocks", .arr (n.blocks.map encodeBlock)),
        ("created", .num n.created), ("updated", .num n.updated)]

/-- Canonical reading of a Note from its JSON image. -/
def decodeNote : Json → Option Note
  | .obj [("id", .str i), ("title", .str t), ("blocks", .arr bs),
          ("created", .num c), ("updated", .num u)] =>
      match decodeList decodeBlock bs with
      | some blocks => some ⟨i, t, blocks, c, u⟩
      | none => none
  | _ => none

/-- JSON.stringify image of a note collection (a JSON array). -/
def encodeNotes (notes : List Note) : Json :=
  .arr (notes.map encodeNote)

/-- Canonical reading of a note collection from a JSON value. -/
def decodeNotes : Json → Option (List Note)
  | .arr xs => decodeList decodeNote xs
  | _ => none

/-- loadNotes, App.tsx lines 39-47. The storage slot holds Option Json (see
module comment): none covers a missing key, a falsy raw string, and a raw
string on which JSON.parse throws - all three return the empty array. A raw
string that parses to j is returned as the parsed value j, with no validation
of its shape. The try/catch makes the source total: this is a total function,
so load never throws to the caller. -/
def loadNotes : Option Json → Json
  | none => .arr []
  | some j => j

/-- saveNotes, App.tsx lines 49-51: unconditionally overwrites the storage
slot with JSON.stringify of the full collection, whose parse is
encodeNotes notes. -/
def saveNotes (notes : List Note) : Option Json :=
  some (encodeNotes notes)

/-- newNote, App.tsx lines 53-72. The three random ids and Date.now() are
explicit parameters. -/
def newNote (noteId headingId textId : String) (now : Nat) : Note :=
  { id := noteId
    title := "Untitled"
    blocks := [⟨headingId, .heading, "New Note"⟩, ⟨textId, .text, ""⟩]
    created := now
    updated := now }

/-- handleAddNote, App.tsx lines 103-107: builds a fresh note, prepends it to
the collection, and selects its id. Returns (new collection, new selectedId). -/
def handleAddNote (notes : List Note) (noteId headingId textId : String)
    (now : Nat) : List Note × Option String :=
  let n := newNote noteId headingId textId now
  (n :: notes, some n.id)

/-- JS array read notes[i]: undefined (none) when i is out of range,
including negative i. -/
def jsGet (notes : List Note) (i : Int) : Option Note :=
  if i < 0 then none else notes[i.toNat]?

/-- JS Array.prototype.findIndex: the index of the first match, or -1 when no
element matches. -/
def jsFindIndex (notes : List Note) (id : String) : Int :=
  let i := notes.findIdx (fun n => n.id = id)
  if i = notes.length then -1 else (i : Int)

/-- handleDeleteNote, App.tsx lines 109-119, confirmed path. Computes
idx = findIndex, then when more than one note is stored reads notes[1] (when
idx = 0) or notes[idx - 1] (otherwise) for the fallback selection, then
filters the deleted id out. Reading .id of an out-of-range (undefined)
element throws a TypeError, modelled as none; some (collection, selectedId)
models normal completion. -/
def handleDeleteNote (notes : List Note) (id : String) :
    Option (List Note × Option String) :=
  let idx := jsFindIndex notes id
  let nextId : Option (Option String) :=
    if 1 < notes.length then
      if idx = 0 then (jsGet notes 1).map (fun n => some n.id)
      else (jsGet notes (idx - 1)).map (fun n => some n.id)
    else some none
  nextId.map (fun nid => (notes.filter (fun n => n.id ≠ id), nid))

/-- handleUpdateNote, App.tsx lines 121-125: replaces every stored note whose
id matches the snapshot by the snapshot with its updated field stamped to
Date.now() (the now parameter). -/
def handleUpdateNote (notes : List Note) (upd : Note) (now : Nat) : List Note :=
  notes.map (fun n => if n.id = upd.id then { upd with updated := now } else n)

/-- The snapshot NoteEditor propagates to handleUpdateNote, App.tsx line 409:
onChange is called with the spread of the selected stored note with the local
title and blocks substituted, so id, created and updated come from the stored
note. -/
def editorSnapshot (note : Note) (title : String) (blocks : List Block) : Note :=
  { note with title := title, blocks := blocks }

/-- handleBlockInput, App.tsx lines 423-430: replaces the content of every
block whose id matches, leaving order and types untouched. -/
def handleBlockInput (blocks : List Block) (id : String) (content : String) :
    List Block :=
  blocks.map (fun b => if b.id = id then { b with content := content } else b)

/-- Enter branch of handleBlockKeyDown, App.tsx lines 438-453: inserts a fresh
empty text block immediately after position idx via slice(0, idx+1) ++ [new]
++ slice(idx+1). The fresh random id is the newId parameter. -/
def insertBlockAfter (blocks : List Block) (idx : Nat) (newId : String) :
    List Block :=
  blocks.take (idx + 1) ++ [⟨newId, .text, ""⟩] ++ blocks.drop (idx + 1)

/-- Backspace branch of handleBlockKeyDown, App.tsx lines 454-466: removes the
current block only when its content is empty and more than one block remains;
otherwise the state is unchanged. -/
def removeBlock (blocks : List Block) (b : Block) : List Block :=
  if b.content = "" ∧ 1 < blocks.length then
    blocks.filter (fun x => x.id ≠ b.id)
  else blocks

/-- The type-advance mapping of the slash branch of handleBlockKeyDown,
App.tsx lines 477-483: text to heading, heading to bulleted-list, anything
else to text. -/
def cycleType : BlockType → BlockType
  | .text => .heading
  | .heading => .bulletedList
  | .bulletedList => .text

/-- The setBlocks update performed when the slash branch fires, App.tsx lines
472-486: advances the type of every block whose id matches through the fixed
cycle. -/
def cycleBlockType (blocks : List Block) (id : String) : List Block :=
  blocks.map (fun b => if b.id = id then { b with type := cycleType b.type } else b)

/-- The slash branch of handleBlockKeyDown including its guard, App.tsx line
468: the update fires only when the current block has type text. -/
def handleSlashKey (blocks : List Block) (b : Block) : List Block :=
  if b.type = .text then cycleBlockType blocks b.id else blocks

/-- Clipboard data carried by a paste event: the plain-text form and the
rich (text/html) form. -/
structure ClipboardData where
  plain : String
  html : String

/-- handleBlockPaste, App.tsx lines 490-499: reads only the text/plain form of
the clipboard and then calls handleBlockInput with that text, so the stored
content of the block becomes exactly the pasted plain text. (The
document.execCommand insertText call is a DOM-only effect; the React state
update is this one.) -/
def handleBlockPaste (blocks : List Block) (id : String) (clip : ClipboardData) :
    List Block :=
  handleBlockInput blocks id clip.plain

/-! Helper lemmas shared by the claim theorems. -/

theorem decodeBlockType_encodeBlockType (t : BlockType) :
    decodeBlockType (encodeBlockType t) = some t := by
  cases t <;> rfl

theorem decodeBlock_encodeBlock (b : Block) :
    decodeBlock (encodeBlock b) = some b := by
  obtain ⟨i, t, c⟩ := b
  cases t <;> rfl

theorem decodeList_map {α : Type} (g : Json → Option α) (f : α → Json)
    (h : ∀ a, g (f a) = some a) (l : List α) :
    decodeList g (l.map f) = some l := by
  induction l with
  | nil => rfl
  | cons a l ih => simp [decodeList, h a, ih]

theorem decodeNote_encodeNote (n : Note) :
    decodeNote (encodeNote n) = some n := by
  obtain ⟨i, t, bs, c, u⟩ := n
  simp [encodeNote, decodeNote,
    decodeList_map decodeBlock encodeBlock decodeBlock_encodeBlock]

theorem cycleType_cycleType_cycleType (t : BlockType) :
    cycleType (cycleType (cycleType t)) = t := by
  cases t <;> rfl

theorem filter_ne_eq_eraseIdx {α β : Type} [DecidableEq β] (f : α → β)
    (l : List α) (a : α) (hmem : a ∈ l) (hnodup : (l.map f).Nodup) :
    l.filter (fun x => f x ≠ f a) = l.eraseIdx (l.findIdx (fun x => f x = f a)) := by
  induction l with
  | nil => rfl
  | cons x xs ih =>
    rw [List.map_cons, List.nodup_cons] at hnodup
    by_cases hfx : f x = f a
    · have hxs : ∀ y ∈ xs, ¬(f y = f a) := by
        intro y hy heq
        exact hnodup.1 (hfx ▸ heq ▸ List.mem_map_of_mem f hy)
      rw [List.findIdx_cons, decide_eq_true hfx]
      simp only [cond_true, List.eraseIdx_cons_zero]
      rw [List.filter_cons_of_neg (by simp [hfx])]
      rw [List.filter_eq_self.mpr (by intro y hy; simpa using hxs y hy)]
    · have hax : a ∈ xs := by
        cases List.mem_cons.mp hmem with
        | inl h => exact absurd (h ▸ rfl) hfx
        | inr h => exact h
      rw [List.findIdx_cons, decide_eq_false hfx]
      simp only [cond_false, List.eraseIdx_cons_succ]
      rw [List.filter_cons_of_pos (by simpa using hfx)]
      rw [ih hax hnodup.2]

/-! Claim theorems. -/

/-- Claim C3, counterexample. The claim states that load() returns the empty
collection on every stored value that is absent or malformed, where malformed
means not a well-formed JSON-serialized array of Note objects. The stored raw
string "0" parses to the JSON number 0, which is not a well-formed array of
Note objects (its canonical reading fails: decodeNotes gives none, whereas
decodeNotes inverts encodeNotes by load_after_save_roundtrip), yet loadNotes
returns that number unchanged rather than the empty array: the source
performs no shape validation on successfully parsed data. -/
theorem load_returns_parsed_value_unvalidated_cex :
    loadNotes (some (Json.num 0)) = Json.num 0 ∧
    decodeNotes (Json.num 0) = none ∧
    Json.num 0 ≠ Json.arr [] :=
  ⟨rfl, rfl, fun h => Json.noConfusion h⟩

/-- Claim C3, amended. load() never throws (it is a total function, the
try/catch in the source recovers every failure), returns the empty collection
when the stored value is absent, falsy, or rejected by JSON.parse (the none
case of the storage model), and returns any successfully parsed JSON value
as-is, with no validation that it is an array of Note objects. -/
theorem load_soft_fails_amended :
    loadNotes none = encodeNotes [] ∧ ∀ j : Json, loadNotes (some j) = j :=
  ⟨rfl, fun _ => rfl⟩

/-- Claim C4. Loading immediately after saving yields exactly the JSON value
that the saved collection serializes to, and that value reads back (deep
structural equality of the parsed clone) as the original collection, for
every collection including the empty one. -/
theorem load_after_save_roundtrip (notes : List Note) :
    loadNotes (saveNotes notes) = encodeNotes notes ∧
    decodeNotes (loadNotes (saveNotes notes)) = some notes := by
  refine ⟨rfl, ?_⟩
  simp [loadNotes, saveNotes, encodeNotes, decodeNotes,
    decodeList_map decodeNote encodeNote decodeNote_encodeNote]

/-- Claim C5. The slash operation fires exactly on plain-text blocks and then
advances the type of the targeted block through the fixed cycle text to
heading to bulleted-list to text; applying the advance three times to any
block list (in particular to a plain-text block) returns it unchanged. -/
theorem cycle_block_type_three_cycle :
    (cycleType .text = .heading ∧ cycleType .heading = .bulletedList ∧
      cycleType .bulletedList = .text) ∧
    (∀ (blocks : List Block) (b : Block),
      handleSlashKey blocks b =
        if b.type = .text then cycleBlockType blocks b.id else blocks) ∧
    (∀ (blocks : List Block) (i : String),
      cycleBlockType (cycleBlockType (cycleBlockType blocks i) i) i = blocks) := by
  refine ⟨⟨rfl, rfl, rfl⟩, fun blocks b => rfl, fun blocks i => ?_⟩
  unfold cycleBlockType
  rw [List.map_map, List.map_map]
  conv_rhs => rw [← List.map_id blocks]
  apply List.map_congr_left
  intro b _
  by_cases h : b.id = i
  · obtain ⟨bid, bty, bc⟩ := b
    have h' : bid = i := h
    subst h'
    simp [cycleType_cycleType_cycleType]
  · simp [Function.comp, h]

/-- Claim C8. Creating a note yields a note titled Untitled with exactly two
blocks, a heading block with content New Note followed by an empty plain-text
block; handleAddNote prepends it to the collection, so the length grows by
exactly one and the new note is first, and its id becomes the selection. -/
theorem add_note_defaults_and_prepends (notes : List Note)
    (noteId headingId textId : String) (now : Nat) :
    (newNote noteId headingId textId now).title = "Untitled" ∧
    (newNote noteId headingId textId now).blocks =
      [⟨headingId, .heading, "New Note"⟩, ⟨textId, .text, ""⟩] ∧
    (handleAddNote notes noteId headingId textId now).1 =
      newNote noteId headingId textId now :: notes ∧
    (handleAddNote notes noteId headingId textId now).1.length =
      notes.length + 1 ∧
    (handleAddNote notes noteId headingId textId now).1.head? =
      some (newNote noteId headingId textId now) ∧
    (handleAddNote notes noteId headingId textId now).2 =
      some (newNote noteId headingId textId now).id := by
  refine ⟨rfl, rfl, rfl, by simp [handleAddNote], rfl, rfl⟩

/-- Claim C9. Pasting into the block with content abc a clipboard whose
plain-text form is xyz (and whose rich text/html form is discarded) leaves
the block with stored content exactly xyz: the React state update replaces
the whole content with the pasted text, so no split of the previous content
abc surrounds the pasted text in the stored result, contradicting retention of
the existing content around the insertion point. -/
theorem paste_replaces_block_content :
    handleBlockPaste [⟨"b1", .text, "abc"⟩] "b1" ⟨"xyz", "<b>xyz</b>"⟩ =
      [⟨"b1", .text, "xyz"⟩] ∧
    ∀ pre post : String, pre ++ post = "abc" →
      ("xyz" : String) ≠ pre ++ "xyz" ++ post := by
  refine ⟨rfl, fun pre post h1 h2 => ?_⟩
  have l1 := congrArg String.length h1
  have l2 := congrArg String.length h2
  rw [String.length_append] at l1
  rw [String.length_append, String.length_append] at l2
  have e1 : ("abc" : String).length = 3 := rfl
  have e2 : ("xyz" : String).length = 3 := rfl
  omega

/-- Claim C9, witness at the split of abc into abc and the empty suffix. -/
theorem paste_replaces_block_content_witness :
    ("abc" : String) ++ "" = "abc" ∧
    (("xyz" : String) ≠ "abc" ++ "xyz" ++ "") ∧
    handleBlockPaste [⟨"b1", .text, "abc"⟩] "b1" ⟨"xyz", "<b>xyz</b>"⟩ =
      [⟨"b1", .text, "xyz"⟩] :=
  ⟨by decide, paste_replaces_block_content.2 "abc" "" (by decide),
    paste_replaces_block_content.1⟩

/-- Claim C2. For every stored collection, every stored note n in it and every
snapshot the editor builds from n (the spread of n with local title and blocks
substituted), every note in the updated collection whose id matches carries
updated stamped to the current time and created exactly as n had it before
the update; its title and blocks are the propagated local values. -/
theorem update_stamps_updated_and_preserves_created
    (notes : List Note) (n : Note) (_hmem : n ∈ notes)
    (title : String) (blocks : List Block) (now : Nat) :
    ∀ m ∈ handleUpdateNote notes (editorSnapshot n title blocks) now,
      m.id = n.id →
        m.updated = now ∧ m.created = n.created ∧
        m.title = title ∧ m.blocks = blocks := by
  intro m hm hid
  rw [handleUpdateNote, List.mem_map] at hm
  obtain ⟨a, ha, rfl⟩ := hm
  by_cases h : a.id = (editorSnapshot n title blocks).id
  · rw [if_pos h]
    exact ⟨rfl, rfl, rfl, rfl⟩
  · rw [if_neg h] at hid
    exact absurd hid h

/-- Claim C2, witness at a one-note collection updated with a new title and a
new block list at time 9. -/
theorem update_stamps_updated_and_preserves_created_witness :
    (⟨"a", "T", [], 5, 5⟩ : Note) ∈ [(⟨"a", "T", [], 5, 5⟩ : Note)] ∧
    ∀ m ∈ handleUpdateNote [(⟨"a", "T", [], 5, 5⟩ : Note)]
        (editorSnapshot ⟨"a", "T", [], 5, 5⟩ "U" [⟨"b", .text, "c"⟩]) 9,
      m.id = (⟨"a", "T", [], 5, 5⟩ : Note).id →
        m.updated = 9 ∧ m.created = (⟨"a", "T", [], 5, 5⟩ : Note).created ∧
        m.title = "U" ∧ m.blocks = [⟨"b", .text, "c"⟩] :=
  ⟨by decide,
    update_stamps_updated_and_preserves_created _ _ (by decide) _ _ _⟩

/-- Claim C7. removeBlock is a no-op when the note has exactly one block
(whatever its content) and when the content of the targeted block is
nonempty; under the data-model invariant of unique block ids, every editor
operation (removeBlock, insertBlockAfter, content editing, type cycling)
leaves the note with at least one block. -/
theorem remove_block_guard_and_min_one_block
    (blocks : List Block) (b : Block) (hmem : b ∈ blocks)
    (hnodup : (blocks.map Block.id).Nodup) :
    (blocks.length = 1 → removeBlock blocks b = blocks) ∧
    (b.content ≠ "" → removeBlock blocks b = blocks) ∧
    1 ≤ (removeBlock blocks b).length ∧
    (∀ (idx : Nat) (newId : String),
      1 ≤ (insertBlockAfter blocks idx newId).length) ∧
    (∀ i c : String, (handleBlockInput blocks i c).length = blocks.length) ∧
    (∀ i : String, (cycleBlockType blocks i).length = blocks.length) := by
  refine ⟨?_, ?_, ?_, ?_, ?_, ?_⟩
  · intro h1
    rw [removeBlock, if_neg]
    rintro ⟨-, h2⟩
    omega
  · intro hc
    rw [removeBlock, if_neg]
    rintro ⟨hc2, -⟩
    exact hc hc2
  · rw [removeBlock]
    by_cases hg : b.content = "" ∧ 1 < blocks.length
    · rw [if_pos hg]
      rw [filter_ne_eq_eraseIdx Block.id blocks b hmem hnodup]
      have hlt : blocks.findIdx (fun x => x.id = b.id) < blocks.length :=
        List.findIdx_lt_length_of_exists ⟨b, hmem, by simp⟩
      rw [List.length_eraseIdx_of_lt hlt]
      omega
    · rw [if_neg hg]
      exact List.length_pos.mpr (List.ne_nil_of_mem hmem)
  · intro idx newId
    simp only [insertBlockAfter, List.length_append, List.length_cons,
      List.length_nil]
    omega
  · intro i c
    simp [handleBlockInput]
  · intro i
    simp [cycleBlockType]

/-- Claim C7, witness on a two-block note targeting the first (empty) block. -/
theorem remove_block_guard_and_min_one_block_witness :
    (⟨"x", .text, ""⟩ : Block) ∈
      [(⟨"x", .text, ""⟩ : Block), ⟨"y", .text, "t"⟩] ∧
    ([(⟨"x", .text, ""⟩ : Block), ⟨"y", .text, "t"⟩].map Block.id).Nodup ∧
    (([(⟨"x", .text, ""⟩ : Block), ⟨"y", .text, "t"⟩] : List Block).length = 1 →
      removeBlock [⟨"x", .text, ""⟩, ⟨"y", .text, "t"⟩] ⟨"x", .text, ""⟩ =
        [⟨"x", .text, ""⟩, ⟨"y", .text, "t"⟩]) ∧
    ((⟨"x", .text, ""⟩ : Block).content ≠ "" →
      removeBlock [⟨"x", .text, ""⟩, ⟨"y", .text, "t"⟩] ⟨"x", .text, ""⟩ =
        [⟨"x", .text, ""⟩, ⟨"y", .text, "t"⟩]) ∧
    1 ≤ (removeBlock [⟨"x", .text, ""⟩, ⟨"y", .text, "t"⟩]
        ⟨"x", .text, ""⟩).length ∧
    (∀ (idx : Nat) (newId : String),
      1 ≤ (insertBlockAfter [⟨"x", .text, ""⟩, ⟨"y", .text, "t"⟩]
        idx newId).length) ∧
    (∀ i c : String,
      (handleBlockInput [⟨"x", .text, ""⟩, ⟨"y", .text, "t"⟩] i c).length =
        ([(⟨"x", .text, ""⟩ : Block), ⟨"y", .text, "t"⟩] : List Block).length) ∧
    (∀ i : String,
      (cycleBlockType [⟨"x", .text, ""⟩, ⟨"y", .text, "t"⟩] i).length =
        ([(⟨"x", .text, ""⟩ : Block), ⟨"y", .text, "t"⟩] : List Block).length) := by
  refine ⟨by decide, by decide, ?_⟩
  have h := remove_block_guard_and_min_one_block
    [⟨"x", .text, ""⟩, ⟨"y", .text, "t"⟩] ⟨"x", .text, ""⟩ (by decide) (by decide)
  exact ⟨h.1, h.2.1, h.2.2.1, h.2.2.2.1, h.2.2.2.2.1, h.2.2.2.2.2⟩

/-- Claim C6. For every valid index idx, the Enter operation yields a list one
longer, with the new empty plain-text block exactly at position idx + 1, every
block at or before idx unmoved, every block after idx shifted by exactly one
place (relative order preserved), and on blocks [A, B] at idx = 0 the result
is [A, newBlock, B]. -/
theorem insert_block_after_inserts_at_index
    (blocks : List Block) (idx : Nat) (newId : String)
    (h : idx < blocks.length) :
    (insertBlockAfter blocks idx newId).length = blocks.length + 1 ∧
    (insertBlockAfter blocks idx newId)[idx + 1]? =
      some ⟨newId, .text, ""⟩ ∧
    (∀ j, j ≤ idx → (insertBlockAfter blocks idx newId)[j]? = blocks[j]?) ∧
    (∀ j, idx < j → (insertBlockAfter blocks idx newId)[j + 1]? = blocks[j]?) ∧
    (∀ A B : Block,
      insertBlockAfter [A, B] 0 newId = [A, ⟨newId, .text, ""⟩, B]) := by
  have htake : (blocks.take (idx + 1)).length = idx + 1 := by
    rw [List.length_take]
    omega
  refine ⟨?_, ?_, ?_, ?_, fun A B => rfl⟩
  · simp only [insertBlockAfter, List.length_append, List.length_cons,
      List.length_nil, htake, List.length_drop]
    omega
  · rw [insertBlockAfter, List.append_assoc,
      List.getElem?_append_right htake.le, htake]
    simp
  · intro j hj
    rw [insertBlockAfter, List.append_assoc,
      List.getElem?_append_left (by rw [htake]; omega)]
    exact List.getElem?_take_of_lt (by omega)
  · intro j hj
    rw [insertBlockAfter, List.append_assoc,
      List.getElem?_append_right (by rw [htake]; omega),
      htake, List.getElem?_append_right (by simp; omega)]
    simp only [List.length_cons, List.length_nil, List.getElem?_drop]
    congr 1
    omega

/-- Claim C6, witness on blocks [A, B] at idx = 0. -/
theorem insert_block_after_inserts_at_index_witness :
    0 < ([(⟨"a", .text, "A"⟩ : Block), ⟨"b", .text, "B"⟩] : List Block).length ∧
    (insertBlockAfter [⟨"a", .text, "A"⟩, ⟨"b", .text, "B"⟩] 0 "n").length =
      ([(⟨"a", .text, "A"⟩ : Block), ⟨"b", .text, "B"⟩] : List Block).length + 1 ∧
    (insertBlockAfter [⟨"a", .text, "A"⟩, ⟨"b", .text, "B"⟩] 0 "n")[0 + 1]? =
      some ⟨"n", .text, ""⟩ ∧
    (∀ j, j ≤ 0 →
      (insertBlockAfter [⟨"a", .text, "A"⟩, ⟨"b", .text, "B"⟩] 0 "n")[j]? =
        ([(⟨"a", .text, "A"⟩ : Block), ⟨"b", .text, "B"⟩] : List Block)[j]?) ∧
    (∀ j, 0 < j →
      (insertBlockAfter [⟨"a", .text, "A"⟩, ⟨"b", .text, "B"⟩] 0 "n")[j + 1]? =
        ([(⟨"a", .text, "A"⟩ : Block), ⟨"b", .text, "B"⟩] : List Block)[j]?) ∧
    (∀ A B : Block, insertBlockAfter [A, B] 0 "n" = [A, ⟨"n", .text, ""⟩, B]) :=
  ⟨by decide,
    insert_block_after_inserts_at_index
      [⟨"a", .text, "A"⟩, ⟨"b", .text, "B"⟩] 0 "n" (by decide)⟩

/-- Claim C1. For every collection with pairwise distinct note ids and every
note n stored in it, the confirmed deletion of n.id completes normally,
removes exactly the note n (the collection loses precisely the entry at the
index findIndex locates, and that entry is n), and selects as fallback: null
when the collection had exactly one note, the note originally at index 1 when
n was first of more than one, and otherwise the note immediately preceding n
in display order. -/
theorem remove_deletes_unique_and_selects_fallback
    (notes : List Note) (n : Note) (hmem : n ∈ notes)
    (hnodup : (notes.map Note.id).Nodup) :
    notes[notes.findIdx (fun m => m.id = n.id)]? = some n ∧
    handleDeleteNote notes n.id =
      some (notes.eraseIdx (notes.findIdx (fun m => m.id = n.id)),
        if notes.length = 1 then none
        else if notes.findIdx (fun m => m.id = n.id) = 0 then
          notes[1]?.map Note.id
        else
          notes[notes.findIdx (fun m => m.id = n.id) - 1]?.map Note.id) := by
  have hlt : notes.findIdx (fun m => m.id = n.id) < notes.length :=
    List.findIdx_lt_length_of_exists ⟨n, hmem, by simp⟩
  have hget : notes[notes.findIdx (fun m => m.id = n.id)]? =
      some notes[notes.findIdx (fun m => m.id = n.id)] :=
    List.getElem?_eq_getElem hlt
  have hpk : notes[notes.findIdx (fun m => m.id = n.id)].id = n.id := by
    simpa using List.findIdx_getElem (w := hlt)
  have helem : notes[notes.findIdx (fun m => m.id = n.id)] = n :=
    List.inj_on_of_nodup_map hnodup (List.getElem_mem hlt) hmem hpk
  have hfil : notes.filter (fun x => x.id ≠ n.id) =
      notes.eraseIdx (notes.findIdx (fun x => x.id = n.id)) :=
    filter_ne_eq_eraseIdx Note.id notes n hmem hnodup
  have hjfi : jsFindIndex notes n.id =
      ((notes.findIdx (fun m => m.id = n.id) : Nat) : Int) := by
    rw [jsFindIndex]
    exact if_neg (by omega)
  refine ⟨by rw [hget, helem], ?_⟩
  have hpos : 0 < notes.length := List.length_pos.mpr (List.ne_nil_of_mem hmem)
  by_cases h1 : 1 < notes.length
  · by_cases h2 : notes.findIdx (fun m => m.id = n.id) = 0
    · have hg1 : notes[1]? = some notes[1] := List.getElem?_eq_getElem h1
      have hne : ¬notes.length = 1 := by omega
      have hfil2 : notes.filter (fun x => !decide (x.id = n.id)) =
          notes.eraseIdx (notes.findIdx (fun x => x.id = n.id)) := by
        rw [← hfil]
        simp [Classical.decide_not]
      simp [handleDeleteNote, hjfi, h2, jsGet, h1, hne, hg1]
      rw [hfil2, h2, List.eraseIdx_zero]
    · have hk1 : notes.findIdx (fun m => m.id = n.id) - 1 < notes.length := by
        omega
      have hgk : notes[notes.findIdx (fun m => m.id = n.id) - 1]? =
          some notes[notes.findIdx (fun m => m.id = n.id) - 1] :=
        List.getElem?_eq_getElem hk1
      have htn : ((notes.findIdx (fun m => m.id = n.id) : Nat) : Int) - 1 =
          ((notes.findIdx (fun m => m.id = n.id) - 1 : Nat) : Int) := by
        omega
      simp only [handleDeleteNote, hjfi, if_pos h1, jsGet]
      rw [if_neg (by exact_mod_cast h2), if_neg (by omega), htn]
      rw [Int.toNat_natCast, hgk]
      simp only [Option.map_some']
      rw [hfil, if_neg (by omega : ¬notes.length = 1), if_neg h2]
  · have hlen1 : notes.length = 1 := by omega
    simp only [handleDeleteNote, hjfi, if_neg h1]
    rw [hfil, if_pos hlen1]
    rfl

/-- Claim C1, witness: deleting the first of two notes selects the note
originally at index 1. -/
theorem remove_deletes_unique_and_selects_fallback_witness :
    (⟨"a", "A", [], 0, 0⟩ : Note) ∈
      [(⟨"a", "A", [], 0, 0⟩ : Note), ⟨"b", "B", [], 0, 0⟩] ∧
    ([(⟨"a", "A", [], 0, 0⟩ : Note), ⟨"b", "B", [], 0, 0⟩].map Note.id).Nodup ∧
    ([(⟨"a", "A", [], 0, 0⟩ : Note), ⟨"b", "B", [], 0, 0⟩][
      [(⟨"a", "A", [], 0, 0⟩ : Note), ⟨"b", "B", [], 0, 0⟩].findIdx
        (fun m => m.id = (⟨"a", "A", [], 0, 0⟩ : Note).id)]? =
      some ⟨"a", "A", [], 0, 0⟩ ∧
    handleDeleteNote [⟨"a", "A", [], 0, 0⟩, ⟨"b", "B", [], 0, 0⟩]
        (⟨"a", "A", [], 0, 0⟩ : Note).id =
      some ([(⟨"a", "A", [], 0, 0⟩ : Note), ⟨"b", "B", [], 0, 0⟩].eraseIdx
          ([(⟨"a", "A", [], 0, 0⟩ : Note), ⟨"b", "B", [], 0, 0⟩].findIdx
            (fun m => m.id = (⟨"a", "A", [], 0, 0⟩ : Note).id)),
        if ([(⟨"a", "A", [], 0, 0⟩ : Note), ⟨"b", "B", [], 0, 0⟩] :
            List Note).length = 1 then none
        else if [(⟨"a", "A", [], 0, 0⟩ : Note), ⟨"b", "B", [], 0, 0⟩].findIdx
            (fun m => m.id = (⟨"a", "A", [], 0, 0⟩ : Note).id) = 0 then
          [(⟨"a", "A", [], 0, 0⟩ : Note), ⟨"b", "B", [], 0, 0⟩][1]?.map Note.id
        else
          [(⟨"a", "A", [], 0, 0⟩ : Note), ⟨"b", "B", [], 0, 0⟩][
            [(⟨"a", "A", [], 0, 0⟩ : Note), ⟨"b", "B", [], 0, 0⟩].findIdx
              (fun m => m.id = (⟨"a", "A", [], 0, 0⟩ : Note).id) - 1]?.map
            Note.id)) :=
  ⟨by decide, by decide,
    remove_deletes_unique_and_selects_fallback
      [⟨"a", "A", [], 0, 0⟩, ⟨"b", "B", [], 0, 0⟩] ⟨"a", "A", [], 0, 0⟩
      (by decide) (by decide)⟩

/-- Claim C10. Deleting an id that is not present while at least two notes are
stored is not a silent no-op: findIndex yields -1, the fallback computation
reads the out-of-range element at position idx - 1 = -2, and the operation
aborts with a thrown TypeError (modelled as none) instead of ignoring the
unknown id. -/
theorem delete_unknown_id_errors (notes : List Note) (id : String)
    (h2 : 2 ≤ notes.length) (habs : ∀ m ∈ notes, m.id ≠ id) :
    jsFindIndex notes id = -1 ∧ handleDeleteNote notes id = none := by
  have hfind : notes.findIdx (fun m => m.id = id) = notes.length :=
    List.findIdx_eq_length.mpr (by intro x hx; simpa using habs x hx)
  have hjfi : jsFindIndex notes id = -1 := by
    rw [jsFindIndex]
    exact if_pos hfind
  refine ⟨hjfi, ?_⟩
  simp only [handleDeleteNote, hjfi, jsGet]
  rw [if_pos (by omega : 1 < notes.length),
    if_neg (by decide : ¬(-1 : Int) = 0),
    if_pos (by decide : (-1 - 1 : Int) < 0)]
  rfl

/-- Claim C10, witness on a two-note collection and the absent id c. -/
theorem delete_unknown_id_errors_witness :
    2 ≤ ([(⟨"a", "A", [], 0, 0⟩ : Note), ⟨"b", "B", [], 0, 0⟩] :
      List Note).length ∧
    (∀ m ∈ [(⟨"a", "A", [], 0, 0⟩ : Note), ⟨"b", "B", [], 0, 0⟩],
      m.id ≠ "c") ∧
    jsFindIndex [⟨"a", "A", [], 0, 0⟩, ⟨"b", "B", [], 0, 0⟩] "c" = -1 ∧
    handleDeleteNote [⟨"a", "A", [], 0, 0⟩, ⟨"b", "B", [], 0, 0⟩] "c" = none :=
  ⟨by decide, by decide,
    delete_unknown_id_errors [⟨"a", "A", [], 0, 0⟩, ⟨"b", "B", [], 0, 0⟩] "c"
      (by decide) (by decide)⟩

end CreativeNotes
